import Mathlib

/-!
Shallow embedding of `engine/base.go` of the dontbug repository (a DBGp ↔
gdb/MI debugging bridge) and proofs about it.

Modelling conventions:
* Go strings are modelled as `List Char`.  All strings manipulated by the
  functions under study are single-byte-character strings, for which Go's
  byte indexing and rune iteration coincide with list indexing.
* Go maps are modelled as association lists with overwrite-on-insert
  semantics; `delete` removes every entry with the given key (a Go map
  holds at most one).
* A Go function that can panic is modelled with an `Option` result where
  `none` stands for the panic (process termination).
* Byte slices (the DBGp wire packet) are modelled as `List Nat`.
-/

namespace Dontbug

/-- Character list of a Lean string literal (the Go string contents). -/
def str (s : String) : List Char := s.data

/-- `unicode.IsSpace` as used by `strings.Fields` / `strings.TrimSpace`. -/
def goIsSpace (c : Char) : Bool :=
  [0x9, 0xA, 0xB, 0xC, 0xD, 0x20, 0x85, 0xA0, 0x1680,
   0x2000, 0x2001, 0x2002, 0x2003, 0x2004, 0x2005, 0x2006, 0x2007,
   0x2008, 0x2009, 0x200A, 0x2028, 0x2029, 0x202F, 0x205F, 0x3000].contains c.toNat

/-- Go map read `m[k]`: the value bound to `k`, if any. -/
def mapLookup {V : Type} : List (List Char × V) → List Char → Option V
  | [], _ => none
  | (k, v) :: rest, key => if key = k then some v else mapLookup rest key

/-- Go `delete(m, k)`: remove the binding of `k` (a Go map holds at most one). -/
def mapErase {V : Type} : List (List Char × V) → List Char → List (List Char × V)
  | [], _ => []
  | (k, v) :: rest, key =>
    if k = key then mapErase rest key else (k, v) :: mapErase rest key

/-- Go map write `m[k] = v`: overwrite any existing binding of `k`. -/
def mapInsert {V : Type} (m : List (List Char × V)) (key : List Char) (v : V) :
    List (List Char × V) :=
  (key, v) :: mapErase m key

/-- Perform a sequence of Go map writes. -/
def insertAll {V : Type} (m : List (List Char × V))
    (l : List (List Char × V)) : List (List Char × V) :=
  l.foldl (fun acc p => mapInsert acc p.1 p.2) m

/-- `strings.Index(s, c)` for a single-character needle: byte index of the
first occurrence, as an `Option`. -/
def strIndexAux (c : Char) : List Char → Option Nat
  | [] => none
  | x :: xs => if x = c then some 0 else (strIndexAux c xs).map (· + 1)

/-- Byte index of the last occurrence, as an `Option`. -/
def strLastIndexAux (c : Char) : List Char → Option Nat
  | [] => none
  | x :: xs =>
    match strLastIndexAux c xs with
    | some i => some (i + 1)
    | none => if x = c then some 0 else none

/-- `strings.Index` with Go's `-1` sentinel for "not found". -/
def strIndex (s : List Char) (c : Char) : Int :=
  match strIndexAux c s with
  | some i => (i : Int)
  | none => -1

/-- `strings.LastIndex` with Go's `-1` sentinel for "not found". -/
def strLastIndex (s : List Char) (c : Char) : Int :=
  match strLastIndexAux c s with
  | some i => (i : Int)
  | none => -1

/-- Go string slice `s[a:b]` (used only with `0 ≤ a ≤ b ≤ len s`). -/
def goSlice (s : List Char) (a b : Int) : List Char :=
  (s.take b.toNat).drop a.toNat

/-- `unquoteGdbStringResult`'s loop (`engine/base.go:129`).  `input` is the
whole string, `l` its length, `i` the current index, the fourth argument
the remaining characters, `skip` the skip flag and `buf` the reversed
output buffer.  The source guards the read of `input[i+1]` with `i < l`,
which is always true inside the loop, so when the character under scrutiny
is a backslash sitting at the last index the read is out of range and the
program panics: that outcome is `none`. -/
def unquoteLoop (input : List Char) (l : Nat) :
    Nat → List Char → Bool → List Char → Option (List Char)
  | _, [], _, buf => some buf.reverse
  | i, c :: cs, skip, buf =>
    if skip then
      unquoteLoop input l (i + 1) cs false buf
    else if c = '\\' ∧ i < l then
      match input[i + 1]? with
      | none => none
      | some next =>
        if next = '"' then unquoteLoop input l (i + 1) cs true ('"' :: buf)
        else unquoteLoop input l (i + 1) cs false (c :: buf)
    else
      unquoteLoop input l (i + 1) cs false (c :: buf)

/-- `unquoteGdbStringResult` (`engine/base.go:129-148`): collapse `\"` to `"`,
pass every other character through.  `none` models the out-of-range panic. -/
def unquoteGdbStringResult (input : List Char) : Option (List Char) :=
  unquoteLoop input input.length 0 input false []

/-- The outcome of `parseGdbStringResponse`: a parsed string or the
returned error value. -/
inductive gdbStringResult where
  | ok (s : List Char)
  | err (msg : List Char)
deriving DecidableEq

/-- `parseGdbStringResponse` (`engine/base.go:117-127`): bound the contents
between the first and the last double quote and unquote them; if the two
bounds coincide or either is `-1`, return an error.  The outer `none`
models a panic inside `unquoteGdbStringResult`. -/
def parseGdbStringResponse (gdbResponse : List Char) : Option gdbStringResult :=
  let first := strIndex gdbResponse '"'
  let last := strLastIndex gdbResponse '"'
  if first = last ∨ first = -1 ∨ last = -1 then
    some (.err (str "Improper gdb data-evaluate-expression string response to: "
      ++ gdbResponse))
  else
    match unquoteGdbStringResult (goSlice gdbResponse (first + 1) last) with
    | some u => some (.ok u)
    | none => none

/-- Whether `parseGdbStringResponse` returned its error value. -/
def isErrResult : Option gdbStringResult → Bool
  | some (.err _) => true
  | _ => false

/-- Accumulator pass of `strings.Fields`: split on runs of whitespace,
keeping only the non-empty tokens.  `acc` holds the reversed current token. -/
def fieldsAux : List Char → List Char → List (List Char)
  | [], acc => if acc.isEmpty then [] else [acc.reverse]
  | c :: cs, acc =>
    if goIsSpace c then
      if acc.isEmpty then fieldsAux cs [] else acc.reverse :: fieldsAux cs []
    else
      fieldsAux cs (c :: acc)

/-- `strings.Fields`: the whitespace-separated tokens of a string. -/
def fields (s : List Char) : List (List Char) := fieldsAux s []

/-- `strings.TrimSpace`: drop leading and trailing whitespace. -/
def trimSpace (s : List Char) : List Char :=
  ((s.dropWhile goIsSpace).reverse.dropWhile goIsSpace).reverse

/-- Value of a decimal digit character, if it is one. -/
def digitVal (c : Char) : Option Nat :=
  if 48 ≤ c.toNat ∧ c.toNat ≤ 57 then some (c.toNat - 48) else none

/-- Decimal digit run of `strconv.Atoi`: `none` on a non-digit. -/
def parseDigits : List Char → Nat → Option Nat
  | [], acc => some acc
  | c :: cs, acc =>
    match digitVal c with
    | some d => parseDigits cs (acc * 10 + d)
    | none => none

/-- `strconv.Atoi` (64-bit `int`): optional sign, then decimal digits;
`none` on an empty numeral, a stray character, or 64-bit overflow. -/
def atoi (s : List Char) : Option Int :=
  match s with
  | [] => none
  | '+' :: rest =>
    if rest.isEmpty then none
    else (parseDigits rest 0).bind fun n =>
      if n ≤ 2 ^ 63 - 1 then some (n : Int) else none
  | '-' :: rest =>
    if rest.isEmpty then none
    else (parseDigits rest 0).bind fun n =>
      if n ≤ 2 ^ 63 then some (-(n : Int)) else none
  | _ =>
    (parseDigits s 0).bind fun n =>
      if n ≤ 2 ^ 63 - 1 then some (n : Int) else none

/-- The flag-collection loop of `parseCommand` (`engine/base.go:154-165`):
iterate over `components[1:]` with index `i` (the remaining part is the
third argument), skipping odd indices; at an even index take the token as a
flag, strip its first character, and bind it to the following token when
`i+2 < len(components)` and to the empty string otherwise. -/
def flagsLoop (components : List (List Char)) :
    Nat → List (List Char) → List (List Char × List Char) →
    List (List Char × List Char)
  | _, [], m => m
  | i, v :: rest, m =>
    if i % 2 = 1 then
      flagsLoop components (i + 1) rest m
    else
      let key := (trimSpace v).drop 1
      let value :=
        if i + 2 < components.length then trimSpace (components.getD (i + 2) [])
        else []
      flagsLoop components (i + 1) rest (mapInsert m key value)

/-- The options map `parseCommand` builds from the token list. -/
def buildFlags (components : List (List Char)) : List (List Char × List Char) :=
  flagsLoop components 0 (components.drop 1) []

/-- `dbgpCmd` (`engine/base.go:80-86`): one parsed DBGp command. -/
structure dbgpCmd where
  command : List Char
  fullCommand : List Char
  options : List (List Char × List Char)
  seqNum : Int
  reverse : Bool
deriving DecidableEq

/-- `parseCommand` (`engine/base.go:150-201`).  `none` models a panic:
either the index-out-of-range on `components[0]` when the line has no
tokens, or `panicIf` on a malformed `-i` value. -/
def parseCommand (fullCommand : List Char) (reverseMode : Bool) : Option dbgpCmd :=
  match fields fullCommand with
  | [] => none
  | command :: rest =>
    let flags := buildFlags (command :: rest)
    let seqInt : Option Int :=
      match mapLookup flags (str "i") with
      | none => some 0
      | some seq => atoi seq
    match seqInt with
    | none => none
    | some seqNum =>
      let rev : Bool :=
        match mapLookup flags (str "z") with
        | none => reverseMode
        | some r =>
          if r = str "1" then true
          else if r = str "0" then false
          else reverseMode
      some { command := command, fullCommand := fullCommand, options := flags,
             seqNum := seqNum, reverse := rev }

/-- Clean pairing of a flag/value token list: tokens are consumed in pairs,
the first of each pair losing its first character to become the key; a
trailing lone flag is bound to the empty string. -/
def pairBindings : List (List Char) → List (List Char × List Char)
  | [] => []
  | [f] => [(f.drop 1, [])]
  | f :: v :: rest => (f.drop 1, v) :: pairBindings rest

/-- A Go `interface{}` value as it occurs in a gdb/MI response map: a
string, a nested map, or anything else (`other` also stands for the `nil`
obtained by reading a missing key). -/
inductive goValue where
  | vStr (s : List Char)
  | vMap (m : List (List Char × goValue))
  | other

/-- `xGdbCmdValue` (`engine/base.go:217-234`) as a function of the gdb/MI
response map for `data-evaluate-expression`.  `none` models a panic: the
missing/`≠ "done"` class checks call `panicWith`, and the two type
assertions `result["payload"].(map[string]interface{})` and
`payload["value"].(string)` panic when the field is absent or of another
shape. -/
def xGdbCmdValue (result : List (List Char × goValue)) : Option (List Char) :=
  match mapLookup result (str "class") with
  | none => none
  | some cls =>
    match cls with
    | goValue.vStr s =>
      if s = str "done" then
        match mapLookup result (str "payload") with
        | some (goValue.vMap payload) =>
          match mapLookup payload (str "value") with
          | some (goValue.vStr v) => some v
          | _ => none
        | _ => none
      else none
    | _ => none

/-- Modelled from the spec: the Breakpoint record of §3 (the defining file
is not part of the sources under study).  Only the fields the membership
tests of §4.3 read are kept: the enabled flag and whether the breakpoint
is a temporary (one-shot) one. -/
structure engineBreakPoint where
  temporary : Bool
  enabled : Bool
deriving DecidableEq

/-- `engineState` (`engine/base.go:60-75`) restricted to the fields
`continueExecution` touches: the status string and the breakpoint
registry.  The gdb session and the notification channel are modelled by
the event list `continueExecution` produces. -/
structure engineState where
  status : List Char
  breakpoints : List (List Char × engineBreakPoint)
deriving DecidableEq

def statusStarting : List Char := str "starting"
def statusStopping : List Char := str "stopping"
def statusStopped : List Char := str "stopped"
def statusRunning : List Char := str "running"
def statusBreak : List Char := str "break"

/-- Modelled from the spec: `isEnabledPhpTemporaryBreakpoint` is declared
in a repository file outside the sources under study; per §4.3 it is the
membership test "is this native-stop-id an enabled temporary breakpoint",
a lookup by id with an enabled check. -/
def isEnabledPhpTemporaryBreakpoint (es : engineState) (id : List Char) : Bool :=
  match mapLookup es.breakpoints id with
  | some bp => bp.enabled && bp.temporary
  | none => false

/-- Modelled from the spec: `isEnabledPhpBreakpoint` is declared in a
repository file outside the sources under study; per §4.3 it is the
membership test "is this native-stop-id an enabled (non-temporary)
breakpoint", a lookup by id with an enabled check. -/
def isEnabledPhpBreakpoint (es : engineState) (id : List Char) : Bool :=
  match mapLookup es.breakpoints id with
  | some bp => bp.enabled && !bp.temporary
  | none => false

/-- The observable steps `continueExecution` takes, in order: a write to
`es.status`, a gdb command sent through `sendGdbCommand`, or a stop id
consumed from the `breakStopNotify` channel. -/
inductive contEvent where
  | setStatus (status : List Char)
  | gdbCmd (command : List Char) (arguments : List (List Char))
  | recvStop (id : List Char)
deriving DecidableEq

/-- Result of one `continueExecution` call: the state after the call, the
returned pair, and the ordered event list. -/
structure contOutcome where
  finalState : engineState
  breakID : List Char
  stoppedOnPhpBreakpoint : Bool
  events : List contEvent
deriving DecidableEq

/-- `continueExecution` (`engine/base.go:237-261`).  The stop id the
`breakStopNotify` channel delivers is passed in as `breakID`; the gdb
session and the channel are reflected in the event list. -/
def continueExecution (es : engineState) (reverse : Bool) (breakID : List Char) :
    contOutcome :=
  let esRunning : engineState := { es with status := statusRunning }
  let contCmd : contEvent :=
    if reverse then .gdbCmd (str "exec-continue") [str "--reverse"]
    else .gdbCmd (str "exec-continue") []
  let esBreak : engineState := { esRunning with status := statusBreak }
  let events : List contEvent :=
    [.setStatus statusRunning, contCmd, .recvStop breakID, .setStatus statusBreak]
  if isEnabledPhpTemporaryBreakpoint esBreak breakID then
    { finalState := { esBreak with breakpoints := mapErase esBreak.breakpoints breakID },
      breakID := breakID, stoppedOnPhpBreakpoint := true, events := events }
  else if isEnabledPhpBreakpoint esBreak breakID then
    { finalState := esBreak, breakID := breakID,
      stoppedOnPhpBreakpoint := true, events := events }
  else
    { finalState := esBreak, breakID := breakID,
      stoppedOnPhpBreakpoint := false, events := events }

/-- ASCII byte list of a Lean string literal (all uses are ASCII). -/
def strBytes (s : String) : List Nat := s.data.map Char.toNat

/-- The fixed XML declaration header of `constructDbgpPacket`
(`engine/base.go:264`), as bytes. -/
def headerXML : List Nat :=
  strBytes "<?xml version=\"1.0\" encoding=\"iso-8859-1\"?>\n"

/-- `strconv.Itoa` on a non-negative length: ASCII decimal digits. -/
def itoa (n : Nat) : List Nat :=
  if n = 0 then [48] else (Nat.digits 10 n).reverse.map (fun d => d + 48)

/-- `constructDbgpPacket` (`engine/base.go:263-272`): decimal length of
`payload + headerXML`, a NUL byte, the header, the payload, a trailing
NUL. -/
def constructDbgpPacket (payload : List Nat) : List Nat :=
  itoa (payload.length + headerXML.length) ++ [0] ++ headerXML ++ payload ++ [0]

/-- ASCII decimal digit byte. -/
def isDigitByte (b : Nat) : Bool := 48 ≤ b && b ≤ 57

/-- Numeric value of a big-endian ASCII digit run. -/
def decodeDigits (ds : List Nat) : Nat :=
  Nat.ofDigits 10 ((ds.map (fun b => b - 48)).reverse)

/-- Modelled from the spec: a conformant DBGp length-prefixed reader (the
IDE side, not part of this repository).  It takes the leading decimal
digits as the declared length, skips the NUL byte, reads that many bytes,
checks and strips the fixed XML declaration header, and returns the
remaining bytes as the payload. -/
def decodeDbgpPacket (packet : List Nat) : Option (List Nat) :=
  let ds := packet.takeWhile isDigitByte
  match packet.dropWhile isDigitByte with
  | 0 :: rest =>
    if ds.isEmpty then none
    else
      let n := decodeDigits ds
      if rest.length < n then none
      else
        let body := rest.take n
        if body.take headerXML.length = headerXML then
          some (body.drop headerXML.length)
        else none
  | _ => none

/-! ### Association-list (Go map) lemmas -/

theorem mapLookup_mapErase_self {V : Type} (m : List (List Char × V)) (key : List Char) :
    mapLookup (mapErase m key) key = none := by
  induction m with
  | nil => rfl
  | cons p rest ih =>
    obtain ⟨k, v⟩ := p
    by_cases h : k = key
    · simpa [mapErase, h] using ih
    · simp only [mapErase, h, if_false, mapLookup]
      rw [if_neg fun hc => h hc.symm]
      exact ih

theorem mapLookup_mapErase_ne {V : Type} (m : List (List Char × V))
    (key other : List Char) (h : other ≠ key) :
    mapLookup (mapErase m key) other = mapLookup m other := by
  induction m with
  | nil => rfl
  | cons p rest ih =>
    obtain ⟨k, v⟩ := p
    by_cases hk : k = key
    · subst hk
      simp [mapErase, mapLookup, h, ih]
    · by_cases ho : other = k <;> simp [mapErase, hk, mapLookup, ho, ih]

theorem mapLookup_mapInsert_self {V : Type} (m : List (List Char × V))
    (key : List Char) (v : V) :
    mapLookup (mapInsert m key v) key = some v := by
  simp [mapInsert, mapLookup]

theorem mapLookup_mapInsert_ne {V : Type} (m : List (List Char × V))
    (key other : List Char) (v : V) (h : other ≠ key) :
    mapLookup (mapInsert m key v) other = mapLookup m other := by
  simp [mapInsert, mapLookup, h, mapLookup_mapErase_ne m key other h]

/-! ### `fields` / `trimSpace` lemmas -/

theorem fieldsAux_of_all_space (s : List Char) (h : ∀ c ∈ s, goIsSpace c = true) :
    fieldsAux s [] = [] := by
  induction s with
  | nil => rfl
  | cons c cs ih =>
    simp only [fieldsAux, h c (List.mem_cons_self c cs), List.isEmpty_nil, if_true]
    exact ih fun x hx => h x (List.mem_cons_of_mem c hx)

theorem fields_of_all_space (s : List Char) (h : ∀ c ∈ s, goIsSpace c = true) :
    fields s = [] :=
  fieldsAux_of_all_space s h

theorem fieldsAux_no_space (s : List Char) :
    ∀ (acc : List Char), (∀ c ∈ acc, goIsSpace c = false) →
      ∀ t ∈ fieldsAux s acc, ∀ c ∈ t, goIsSpace c = false := by
  induction s with
  | nil =>
    intro acc hacc t ht c hc
    by_cases h : acc.isEmpty <;> simp [fieldsAux, h] at ht
    subst ht
    exact hacc c (List.mem_reverse.mp hc)
  | cons x xs ih =>
    intro acc hacc t ht c hc
    by_cases hx : goIsSpace x
    · by_cases ha : acc.isEmpty
      · simp only [fieldsAux, hx, if_true, ha] at ht
        exact ih [] (by simp) t ht c hc
      · simp only [fieldsAux, hx, if_true, ha, if_false, List.mem_cons] at ht
        cases ht with
        | head => exact hacc c (List.mem_reverse.mp hc)
        | tail _ ht => exact ih [] (by simp) t ht c hc
    · simp only [fieldsAux, hx, if_false] at ht
      have hacc2 : ∀ c ∈ x :: acc, goIsSpace c = false := by
        intro d hd
        rcases List.mem_cons.mp hd with rfl | hd
        · exact Bool.not_eq_true _ ▸ eq_false_of_ne_true hx
        · exact hacc d hd
      exact ih (x :: acc) hacc2 t ht c hc

theorem trimSpace_of_no_space (t : List Char) (h : ∀ c ∈ t, goIsSpace c = false) :
    trimSpace t = t := by
  have h1 : t.dropWhile goIsSpace = t := by
    cases t with
    | nil => rfl
    | cons c cs => simp [List.dropWhile, h c (List.mem_cons_self c cs)]
  have h2 : t.reverse.dropWhile goIsSpace = t.reverse := by
    cases hr : t.reverse with
    | nil => rfl
    | cons c cs =>
      have hmem : c ∈ t := by
        rw [← List.mem_reverse, hr]
        exact List.mem_cons_self c cs
      rw [← hr]
      cases hr2 : t.reverse with
      | nil => rfl
      | cons d ds =>
        have hd : d ∈ t := by
          rw [← List.mem_reverse, hr2]
          exact List.mem_cons_self d ds
        simp [List.dropWhile, h d hd]
  rw [trimSpace, h1, h2, List.reverse_reverse]

theorem fields_no_space (s : List Char) :
    ∀ t ∈ fields s, ∀ c ∈ t, goIsSpace c = false :=
  fieldsAux_no_space s [] (by simp)

theorem fields_trimSpace (s : List Char) : ∀ t ∈ fields s, trimSpace t = t :=
  fun t ht => trimSpace_of_no_space t (fields_no_space s t ht)

/-! ### `flagsLoop` unrolls to the clean pairing -/

theorem flagsLoop_eq_insertAll (components : List (List Char))
    (htrim : ∀ t ∈ components, trimSpace t = t) :
    ∀ (fuel : Nat) (cs : List (List Char)) (i : Nat) (m : List (List Char × List Char)),
      cs.length ≤ fuel → i % 2 = 0 → components.drop (i + 1) = cs →
      flagsLoop components i cs m = insertAll m (pairBindings cs) := by
  intro fuel
  induction fuel with
  | zero =>
    intro cs i m hlen _ _
    have hnil : cs = [] := List.length_eq_zero.mp (Nat.le_zero.mp hlen)
    subst hnil
    simp [flagsLoop, pairBindings, insertAll]
  | succ fuel ih =>
    intro cs i m hlen hi hdrop
    match cs with
    | [] => simp [flagsLoop, pairBindings, insertAll]
    | [f] =>
      have hflen : components.length = i + 2 := by
        have hl := congrArg List.length hdrop
        rw [List.length_drop] at hl
        simp at hl
        omega
      have hmemf : f ∈ components := by
        refine List.drop_subset (i + 1) components ?_
        rw [hdrop]
        exact List.mem_cons_self f []
      have hnotlt : ¬(i + 2 < components.length) := by omega
      simp only [flagsLoop, Nat.add_mod_right]
      rw [if_neg (by omega : ¬i % 2 = 1), if_neg hnotlt]
      simp only [flagsLoop, pairBindings, insertAll, List.foldl_cons, List.foldl_nil,
        htrim f hmemf]
    | f :: v :: rest =>
      have hlen2 : components.length - (i + 1) = rest.length + 2 := by
        have hl := congrArg List.length hdrop
        rw [List.length_drop] at hl
        simpa using hl
      have hlt : i + 2 < components.length := by omega
      have hmemf : f ∈ components := by
        refine List.drop_subset (i + 1) components ?_
        rw [hdrop]
        exact List.mem_cons_self f (v :: rest)
      have hdrop2 : components.drop (i + 2) = v :: rest := by
        have : components.drop (i + 1 + 1) = (components.drop (i + 1)).drop 1 := by
          rw [List.drop_drop]
        rw [this, hdrop]
        rfl
      have hmemv : v ∈ components := by
        refine List.drop_subset (i + 2) components ?_
        rw [hdrop2]
        exact List.mem_cons_self v rest
      have hgetd : components.getD (i + 2) [] = v := by
        rw [List.getD_eq_getElem?_getD, ← List.head?_drop, hdrop2]
        rfl
      have hdrop3 : components.drop (i + 2 + 1) = rest := by
        have : components.drop (i + 2 + 1) = (components.drop (i + 2)).drop 1 := by
          rw [List.drop_drop]
        rw [this, hdrop2]
        rfl
      simp only [flagsLoop]
      rw [if_neg (by omega : ¬i % 2 = 1), if_pos hlt, hgetd, htrim f hmemf, htrim v hmemv]
      rw [if_pos (by omega : (i + 1) % 2 = 1)]
      rw [ih rest (i + 1 + 1) (mapInsert m (f.drop 1) v) (by simp at hlen; omega)
        (by omega) (by rw [show i + 1 + 1 + 1 = i + 2 + 1 from by omega]; exact hdrop3)]
      simp [pairBindings, insertAll]

theorem buildFlags_eq_pairBindings (components : List (List Char))
    (htrim : ∀ t ∈ components, trimSpace t = t) :
    buildFlags components = insertAll [] (pairBindings (components.drop 1)) :=
  flagsLoop_eq_insertAll components htrim (components.drop 1).length
    (components.drop 1) 0 [] le_rfl rfl rfl

/-! ### First/last quote index lemmas -/

theorem strIndexAux_eq_none_iff (c : Char) (s : List Char) :
    strIndexAux c s = none ↔ s.count c = 0 := by
  induction s with
  | nil => simp [strIndexAux]
  | cons x xs ih =>
    by_cases h : x = c
    · subst h
      simp [strIndexAux, List.count_cons]
    · simp [strIndexAux, h, List.count_cons, ih, fun hc : c = x => h hc.symm]

theorem strLastIndexAux_eq_none_iff (c : Char) (s : List Char) :
    strLastIndexAux c s = none ↔ s.count c = 0 := by
  induction s with
  | nil => simp [strLastIndexAux]
  | cons x xs ih =>
    rcases hlast : strLastIndexAux c xs with _ | i
    · by_cases h : x = c
      · subst h
        simp [strLastIndexAux, hlast, List.count_cons]
      · simp [strLastIndexAux, hlast, h, List.count_cons, ih.mp hlast]
    · have hcount : xs.count c ≠ 0 := fun hc => by
        rw [← ih] at hc
        rw [hc] at hlast
        exact Option.noConfusion hlast
      simp only [strLastIndexAux, hlast, List.count_cons]
      constructor
      · intro hc
        exact Option.noConfusion hc
      · intro hc
        exact absurd (by omega : xs.count c = 0) hcount

theorem indices_eq_of_count_one (c : Char) (s : List Char) (h : s.count c = 1) :
    strIndexAux c s = strLastIndexAux c s := by
  induction s with
  | nil => rfl
  | cons x xs ih =>
    by_cases hx : x = c
    · subst hx
      have hzero : xs.count x = 0 := by
        simp [List.count_cons] at h
        omega
      have hlast : strLastIndexAux x xs = none := (strLastIndexAux_eq_none_iff x xs).mpr hzero
      simp [strIndexAux, strLastIndexAux, hlast]
    · have hone : xs.count c = 1 := by
        simpa [List.count_cons, hx] using h
      have hne : strIndexAux c xs ≠ none := fun hc =>
        by simp [strIndexAux_eq_none_iff, hone] at hc
      rcases hf : strIndexAux c xs with _ | i
      · exact absurd hf hne
      · have hl : strLastIndexAux c xs = some i := by rw [← ih hone, hf]
        simp [strIndexAux, strLastIndexAux, hx, hf, hl]

theorem indices_ne_of_count_two (c : Char) (s : List Char) (h : 2 ≤ s.count c) :
    ∃ i j, strIndexAux c s = some i ∧ strLastIndexAux c s = some j ∧ i ≠ j := by
  induction s with
  | nil => simp [List.count_nil] at h
  | cons x xs ih =>
    by_cases hx : x = c
    · subst hx
      have hpos : xs.count x ≠ 0 := by
        simp only [List.count_cons, beq_self_eq_true, if_true] at h
        omega
      have hne : strLastIndexAux x xs ≠ none := fun hc =>
        hpos ((strLastIndexAux_eq_none_iff x xs).mp hc)
      rcases hlast : strLastIndexAux x xs with _ | j
      · exact absurd hlast hne
      · exact ⟨0, j + 1, by simp [strIndexAux], by simp [strLastIndexAux, hlast],
          by omega⟩
    · have htwo : 2 ≤ xs.count c := by
        simpa [List.count_cons, hx] using h
      obtain ⟨i, j, hf, hl, hne⟩ := ih htwo
      exact ⟨i + 1, j + 1, by simp [strIndexAux, hx, hf],
        by simp [strLastIndexAux, hl], by omega⟩

/-! ### DBGp packet lemmas -/

theorem takeWhile_append_all {α : Type} (p : α → Bool) (l1 l2 : List α) (y : α)
    (h1 : ∀ x ∈ l1, p x = true) (h2 : p y = false) :
    (l1 ++ y :: l2).takeWhile p = l1 ∧ (l1 ++ y :: l2).dropWhile p = y :: l2 := by
  induction l1 with
  | nil => simp [List.takeWhile, List.dropWhile, h2]
  | cons a l ih =>
    have ha : p a = true := h1 a (List.mem_cons_self a l)
    have hrest := ih fun x hx => h1 x (List.mem_cons_of_mem a hx)
    simp [List.takeWhile, List.dropWhile, ha, hrest.1, hrest.2]

theorem itoa_all_digits (n : Nat) : ∀ b ∈ itoa n, isDigitByte b = true := by
  intro b hb
  unfold itoa at hb
  by_cases h : n = 0
  · simp [h] at hb
    subst hb
    rfl
  · simp only [h, if_false, List.mem_map, List.mem_reverse] at hb
    obtain ⟨d, hd, rfl⟩ := hb
    have hlt : d < 10 := Nat.digits_lt_base (by norm_num) hd
    simp only [isDigitByte, Bool.and_eq_true, decide_eq_true_eq]
    omega

theorem itoa_ne_nil (n : Nat) : itoa n ≠ [] := by
  unfold itoa
  by_cases h : n = 0 <;>
    simp [h, Nat.digits_ne_nil_iff_ne_zero]

theorem decodeDigits_itoa (n : Nat) : decodeDigits (itoa n) = n := by
  unfold decodeDigits itoa
  by_cases h : n = 0
  · simp [h, Nat.ofDigits]
  · simp only [h, if_false, List.map_map]
    have hcomp : ((fun b => b - 48) ∘ fun d => d + 48) = id :=
      funext fun d => by simp [Function.comp]
    rw [hcomp, List.map_id, List.reverse_reverse, Nat.ofDigits_digits]

/-! ### `continueExecution` lemmas -/

theorem continueExecution_eq (es : engineState) (rev : Bool) (B : List Char) :
    continueExecution es rev B =
      if isEnabledPhpTemporaryBreakpoint es B then
        { finalState := { status := statusBreak, breakpoints := mapErase es.breakpoints B },
          breakID := B, stoppedOnPhpBreakpoint := true,
          events := [.setStatus statusRunning,
            if rev then .gdbCmd (str "exec-continue") [str "--reverse"]
            else .gdbCmd (str "exec-continue") [],
            .recvStop B, .setStatus statusBreak] }
      else if isEnabledPhpBreakpoint es B then
        { finalState := { status := statusBreak, breakpoints := es.breakpoints },
          breakID := B, stoppedOnPhpBreakpoint := true,
          events := [.setStatus statusRunning,
            if rev then .gdbCmd (str "exec-continue") [str "--reverse"]
            else .gdbCmd (str "exec-continue") [],
            .recvStop B, .setStatus statusBreak] }
      else
        { finalState := { status := statusBreak, breakpoints := es.breakpoints },
          breakID := B, stoppedOnPhpBreakpoint := false,
          events := [.setStatus statusRunning,
            if rev then .gdbCmd (str "exec-continue") [str "--reverse"]
            else .gdbCmd (str "exec-continue") [],
            .recvStop B, .setStatus statusBreak] } := rfl

theorem isEnabledPhpTemporaryBreakpoint_of_lookup (es : engineState) (B : List Char)
    (bp : engineBreakPoint) (hbp : mapLookup es.breakpoints B = some bp) :
    isEnabledPhpTemporaryBreakpoint es B = (bp.enabled && bp.temporary) := by
  simp [isEnabledPhpTemporaryBreakpoint, hbp]

theorem isEnabledPhpBreakpoint_of_lookup (es : engineState) (B : List Char)
    (bp : engineBreakPoint) (hbp : mapLookup es.breakpoints B = some bp) :
    isEnabledPhpBreakpoint es B = (bp.enabled && !bp.temporary) := by
  simp [isEnabledPhpBreakpoint, hbp]

theorem isEnabledPhpTemporaryBreakpoint_of_lookup_none (es : engineState) (B : List Char)
    (hbp : mapLookup es.breakpoints B = none) :
    isEnabledPhpTemporaryBreakpoint es B = false := by
  simp [isEnabledPhpTemporaryBreakpoint, hbp]

theorem isEnabledPhpBreakpoint_of_lookup_none (es : engineState) (B : List Char)
    (hbp : mapLookup es.breakpoints B = none) :
    isEnabledPhpBreakpoint es B = false := by
  simp [isEnabledPhpBreakpoint, hbp]

/-! ### Claim theorems -/

/-- C1: temporary breakpoints are one-shot.  If the breakpoint registry of
`es` maps id `B` to an enabled temporary breakpoint, then
`continueExecution` on stop id `B` deletes `B` from the breakpoints map
and returns `(B, true)`; after that deletion `B` is absent from the
registry, and a later `continueExecution` receiving the same id `B`
returns `(B, false)`. -/
theorem c1_temporary_breakpoints_one_shot
    (es : engineState) (rev rev2 : Bool) (B : List Char) (bp : engineBreakPoint)
    (hbp : mapLookup es.breakpoints B = some bp)
    (hen : bp.enabled = true) (htmp : bp.temporary = true) :
    (continueExecution es rev B).breakID = B ∧
    (continueExecution es rev B).stoppedOnPhpBreakpoint = true ∧
    (continueExecution es rev B).finalState.breakpoints = mapErase es.breakpoints B ∧
    mapLookup (continueExecution es rev B).finalState.breakpoints B = none ∧
    (continueExecution (continueExecution es rev B).finalState rev2 B).breakID = B ∧
    (continueExecution (continueExecution es rev B).finalState rev2 B).stoppedOnPhpBreakpoint
      = false := by
  have h1 : isEnabledPhpTemporaryBreakpoint es B = true := by
    rw [isEnabledPhpTemporaryBreakpoint_of_lookup es B bp hbp, hen, htmp]
    rfl
  have hfst : continueExecution es rev B =
      ⟨⟨statusBreak, mapErase es.breakpoints B⟩, B, true,
        [.setStatus statusRunning,
         if rev then .gdbCmd (str "exec-continue") [str "--reverse"]
         else .gdbCmd (str "exec-continue") [],
         .recvStop B, .setStatus statusBreak]⟩ := by
    rw [continueExecution_eq, if_pos h1]
  have hgone : mapLookup (mapErase es.breakpoints B) B = none :=
    mapLookup_mapErase_self es.breakpoints B
  have hes2 : (continueExecution es rev B).finalState =
      ⟨statusBreak, mapErase es.breakpoints B⟩ := by
    rw [hfst]
  have h2t : isEnabledPhpTemporaryBreakpoint
      (continueExecution es rev B).finalState B = false := by
    rw [hes2]
    exact isEnabledPhpTemporaryBreakpoint_of_lookup_none _ B hgone
  have h2b : isEnabledPhpBreakpoint (continueExecution es rev B).finalState B = false := by
    rw [hes2]
    exact isEnabledPhpBreakpoint_of_lookup_none _ B hgone
  refine ⟨by rw [hfst], by rw [hfst], by rw [hfst], ?_, ?_, ?_⟩
  · rw [hes2]
    exact hgone
  · rw [continueExecution_eq, if_neg (by rw [h2t]; exact Bool.false_ne_true),
      if_neg (by rw [h2b]; exact Bool.false_ne_true)]
  · rw [continueExecution_eq, if_neg (by rw [h2t]; exact Bool.false_ne_true),
      if_neg (by rw [h2b]; exact Bool.false_ne_true)]

/-- C1 witness: a concrete engine state whose registry maps "t1" to an
enabled temporary breakpoint; the first continue deletes it and reports a
hit, the second continue on the same id reports no hit. -/
theorem c1_temporary_breakpoints_one_shot_witness :
    mapLookup [(str "t1", (⟨true, true⟩ : engineBreakPoint))] (str "t1")
      = some ⟨true, true⟩ ∧
    (continueExecution ⟨statusBreak, [(str "t1", ⟨true, true⟩)]⟩
      false (str "t1")).stoppedOnPhpBreakpoint = true ∧
    (continueExecution (continueExecution ⟨statusBreak, [(str "t1", ⟨true, true⟩)]⟩
      false (str "t1")).finalState false (str "t1")).stoppedOnPhpBreakpoint = false := by
  have h := c1_temporary_breakpoints_one_shot
    ⟨statusBreak, [(str "t1", ⟨true, true⟩)]⟩
    false false (str "t1") ⟨true, true⟩ (by rfl) rfl rfl
  exact ⟨rfl, h.2.1, h.2.2.2.2.2⟩

/-- C3: `continueExecution` issues `exec-continue` with the `--reverse`
modifier exactly when `reverse` is true, sets status to `running` before
issuing it and to `break` after consuming exactly one stop event; a stop
id matching an enabled ordinary (non-temporary) breakpoint yields
`(id, true)` with the breakpoints map unchanged, and a stop id matching no
enabled breakpoint yields `(id, false)` with the breakpoints map
unchanged. -/
theorem c3_continue_execution_protocol (es : engineState) (rev : Bool) (B : List Char) :
    (continueExecution es rev B).events =
      [contEvent.setStatus statusRunning,
       contEvent.gdbCmd (str "exec-continue") (if rev then [str "--reverse"] else []),
       contEvent.recvStop B, contEvent.setStatus statusBreak] ∧
    (continueExecution es rev B).finalState.status = statusBreak ∧
    (∀ bp, mapLookup es.breakpoints B = some bp → bp.enabled = true →
      bp.temporary = false →
      (continueExecution es rev B).breakID = B ∧
      (continueExecution es rev B).stoppedOnPhpBreakpoint = true ∧
      (continueExecution es rev B).finalState.breakpoints = es.breakpoints) ∧
    (isEnabledPhpTemporaryBreakpoint es B = false →
      isEnabledPhpBreakpoint es B = false →
      (continueExecution es rev B).breakID = B ∧
      (continueExecution es rev B).stoppedOnPhpBreakpoint = false ∧
      (continueExecution es rev B).finalState.breakpoints = es.breakpoints) := by
  refine ⟨?_, ?_, ?_, ?_⟩
  · rw [continueExecution_eq]
    by_cases h1 : isEnabledPhpTemporaryBreakpoint es B <;>
      by_cases h2 : isEnabledPhpBreakpoint es B <;>
      cases rev <;> simp [h1, h2]
  · rw [continueExecution_eq]
    by_cases h1 : isEnabledPhpTemporaryBreakpoint es B <;>
      by_cases h2 : isEnabledPhpBreakpoint es B <;> simp [h1, h2]
  · intro bp hbp hen htmp
    have h1 : isEnabledPhpTemporaryBreakpoint es B = false := by
      rw [isEnabledPhpTemporaryBreakpoint_of_lookup es B bp hbp, htmp]
      simp
    have h2 : isEnabledPhpBreakpoint es B = true := by
      rw [isEnabledPhpBreakpoint_of_lookup es B bp hbp, hen, htmp]
      rfl
    rw [continueExecution_eq]
    simp [h1, h2]
  · intro h1 h2
    rw [continueExecution_eq]
    simp [h1, h2]

/-- C3 witness: at a concrete state holding an enabled ordinary breakpoint
"b1" the continue reports a hit and leaves the registry unchanged, and at
a concrete state with an empty registry it reports no hit; the reverse
call records the `--reverse` modifier. -/
theorem c3_continue_execution_protocol_witness :
    ((continueExecution ⟨statusBreak, [(str "b1", ⟨false, true⟩)]⟩
        false (str "b1")).stoppedOnPhpBreakpoint = true ∧
      (continueExecution ⟨statusBreak, [(str "b1", ⟨false, true⟩)]⟩
        false (str "b1")).finalState.breakpoints = [(str "b1", ⟨false, true⟩)]) ∧
    (continueExecution ⟨statusBreak, []⟩ true (str "end")).stoppedOnPhpBreakpoint
      = false ∧
    (continueExecution ⟨statusBreak, []⟩ true (str "end")).events =
      [contEvent.setStatus statusRunning,
       contEvent.gdbCmd (str "exec-continue") [str "--reverse"],
       contEvent.recvStop (str "end"), contEvent.setStatus statusBreak] := by
  have h1 := (c3_continue_execution_protocol
    ⟨statusBreak, [(str "b1", ⟨false, true⟩)]⟩ false (str "b1")).2.2.1
    ⟨false, true⟩ (by rfl) rfl rfl
  have h2 := (c3_continue_execution_protocol
    ⟨statusBreak, []⟩ true (str "end")).2.2.2 rfl rfl
  have h3 := (c3_continue_execution_protocol ⟨statusBreak, []⟩ true (str "end")).1
  exact ⟨⟨h1.2.1, h1.2.2⟩, h2.2.1, by simpa using h3⟩

/-- C2: `constructDbgpPacket P` is exactly the ASCII decimal of
`len(headerXML) + len(P)`, a NUL byte, the fixed XML declaration header,
the payload bytes, and a trailing NUL; the declared length decodes to
`len(headerXML) + len(P)`, and a reader that takes the length prefix,
skips the NUL, reads that many bytes and strips the fixed header recovers
exactly `P`. -/
theorem c2_dbgp_packet_roundtrip (payload : List Nat) :
    constructDbgpPacket payload =
      itoa (headerXML.length + payload.length) ++ [0] ++ headerXML ++ payload ++ [0] ∧
    decodeDigits ((constructDbgpPacket payload).takeWhile isDigitByte) =
      headerXML.length + payload.length ∧
    decodeDbgpPacket (constructDbgpPacket payload) = some payload := by
  have hshape : constructDbgpPacket payload =
      itoa (payload.length + headerXML.length) ++
        (0 :: ((headerXML ++ payload) ++ [0])) := by
    simp [constructDbgpPacket, List.append_assoc]
  have hsplit := takeWhile_append_all isDigitByte
    (itoa (payload.length + headerXML.length)) ((headerXML ++ payload) ++ [0]) 0
    (itoa_all_digits _) rfl
  have hlenbody : payload.length + headerXML.length = (headerXML ++ payload).length := by
    simp [List.length_append, Nat.add_comm]
  refine ⟨?_, ?_, ?_⟩
  · rw [Nat.add_comm headerXML.length payload.length]
    rfl
  · rw [hshape, hsplit.1, decodeDigits_itoa, Nat.add_comm]
  · rw [hshape]
    simp only [decodeDbgpPacket, hsplit.1, hsplit.2]
    rw [if_neg (by simp [itoa_ne_nil])]
    rw [decodeDigits_itoa]
    rw [if_neg (by simp [List.length_append]; omega)]
    rw [hlenbody, List.take_left, List.take_left, if_pos rfl, List.drop_left]

/-- Shape of every successful `parseCommand` run: the verb is the first
token, the options are the flag map built from the whole token list, and
the sequence number and reverse flag are determined by the `i` and `z`
bindings. -/
theorem parseCommand_some_shape (s : List Char) (rev : Bool) (cmd : dbgpCmd)
    (h : parseCommand s rev = some cmd) :
    ∃ rest, fields s = cmd.command :: rest ∧ cmd.fullCommand = s ∧
      cmd.options = buildFlags (cmd.command :: rest) ∧
      ((mapLookup cmd.options (str "i") = none ∧ cmd.seqNum = 0) ∨
        (∃ seq, mapLookup cmd.options (str "i") = some seq ∧
          atoi seq = some cmd.seqNum)) ∧
      cmd.reverse = (match mapLookup cmd.options (str "z") with
        | none => rev
        | some r => if r = str "1" then true else if r = str "0" then false else rev) := by
  unfold parseCommand at h
  rcases hf : fields s with _ | ⟨command, rest⟩ <;> simp only [hf] at h
  · exact absurd h (by simp)
  · rcases hm : mapLookup (buildFlags (command :: rest)) (str "i") with _ | seq <;>
      simp only [hm] at h
    · obtain heq := Option.some.inj h
      subst heq
      exact ⟨rest, rfl, rfl, rfl, Or.inl ⟨hm, rfl⟩, rfl⟩
    · rcases ha : atoi seq with _ | n <;> simp only [ha] at h
      · exact absurd h (by simp)
      · obtain heq := Option.some.inj h
        subst heq
        exact ⟨rest, rfl, rfl, rfl, Or.inr ⟨seq, hm, by rw [ha]⟩, rfl⟩

/-- Converse: with a non-empty token list and a sequence number that
either defaults or parses, `parseCommand` succeeds with the expected
command record. -/
theorem parseCommand_of_fields (s : List Char) (rev : Bool) (command : List Char)
    (rest : List (List Char)) (n : Int) (hf : fields s = command :: rest)
    (hseq : (match mapLookup (buildFlags (command :: rest)) (str "i") with
             | none => some (0 : Int)
             | some seq => atoi seq) = some n) :
    parseCommand s rev = some
      ⟨command, s, buildFlags (command :: rest), n,
        match mapLookup (buildFlags (command :: rest)) (str "z") with
        | none => rev
        | some r => if r = str "1" then true else if r = str "0" then false else rev⟩ := by
  unfold parseCommand
  simp only [hf]
  rw [hseq]

/-- C4: the claim says `unquoteGdbStringResult` collapses each
backslash-quote pair, passes every other character through unchanged, and
returns a result for every input string.  The escape collapsing and the
identity cases behave as claimed, but on a string whose last character is
a scanned backslash the code reads `input[i+1]` out of range (the guard
`i < l` is vacuous inside the loop) and the process panics, so the
single-backslash string refutes totality. -/
theorem c4_unquote_behaviour :
    unquoteGdbStringResult (str "\\") = none ∧
    unquoteGdbStringResult (str "He said \\\"hi\\\"") = some (str "He said \"hi\"") ∧
    unquoteGdbStringResult (str "") = some (str "") ∧
    unquoteGdbStringResult (str "no escapes here") = some (str "no escapes here") := by
  refine ⟨rfl, by decide, rfl, by decide⟩

/-- C10: `parseCommand` is only defined on command lines with at least one
token: on an empty or all-whitespace line, `strings.Fields` yields an
empty slice and the read of `components[0]` panics. -/
theorem c10_parse_command_requires_token (s : List Char) (rev : Bool)
    (h : ∀ c ∈ s, goIsSpace c = true) : parseCommand s rev = none := by
  unfold parseCommand
  rw [fields_of_all_space s h]

/-- C10 witness: the two-space command line is all whitespace and makes
`parseCommand` panic. -/
theorem c10_parse_command_requires_token_witness :
    (∀ c ∈ str "  ", goIsSpace c = true) ∧ parseCommand (str "  ") false = none :=
  ⟨by decide, c10_parse_command_requires_token (str "  ") false (by decide)⟩

/-- C5: `parseCommand` splits the line on whitespace, takes the first
token as the verb, and consumes the remaining tokens in pairs as
flag-then-value bindings with the flag's first character stripped; a
trailing flag with no value is bound to the empty string
(`pairBindings`); and parsing "step_into -i 5" with ambient reverse false
yields verb `step_into`, options `{i: "5"}`, seqNum 5, reverse false. -/
theorem c5_parse_command_shape :
    (∀ (s : List Char) (rev : Bool) (cmd : dbgpCmd), parseCommand s rev = some cmd →
      ∃ rest, fields s = cmd.command :: rest ∧
        cmd.options = insertAll [] (pairBindings rest)) ∧
    parseCommand (str "step_into -i 5") false =
      some ⟨str "step_into", str "step_into -i 5", [(str "i", str "5")], 5, false⟩ := by
  constructor
  · intro s rev cmd h
    obtain ⟨rest, hf, -, hopts, -, -⟩ := parseCommand_some_shape s rev cmd h
    refine ⟨rest, hf, ?_⟩
    rw [hopts]
    have htrim : ∀ t ∈ cmd.command :: rest, trimSpace t = t := by
      rw [← hf]
      exact fields_trimSpace s
    simpa using buildFlags_eq_pairBindings (cmd.command :: rest) htrim
  · decide

/-- C5 witness: the general shape applied to a concrete line whose last
flag token has no value and is bound to the empty string. -/
theorem c5_parse_command_shape_witness :
    ∃ rest, fields (str "breakpoint_set -t line -n") = (str "breakpoint_set") :: rest ∧
      ([(str "n", []), (str "t", str "line")] : List (List Char × List Char)) =
        insertAll [] (pairBindings rest) := by
  exact (c5_parse_command_shape).1 (str "breakpoint_set -t line -n") false
    ⟨str "breakpoint_set", str "breakpoint_set -t line -n",
      [(str "n", []), (str "t", str "line")], 0, false⟩ (by decide)

/-- C6 counterexample: the empty command line contains no `-i` binding,
yet `parseCommand` does not succeed on it — it panics indexing
`components[0]` — refuting "for every command line in which no -i flag
binding is present, parseCommand succeeds". -/
theorem c6_counterexample : parseCommand (str "") false = none := rfl

/-- C6 amended: for every command line with at least one token, when no
`-i` binding is present `parseCommand` succeeds with seqNum 0, and when an
`-i` binding with a decimal value `n` is present it succeeds with seqNum
`n`. -/
theorem c6_seq_num_amended (s : List Char) (rev : Bool) :
    (∀ command rest, fields s = command :: rest →
      mapLookup (buildFlags (command :: rest)) (str "i") = none →
      ∃ cmd, parseCommand s rev = some cmd ∧ cmd.seqNum = 0) ∧
    (∀ command rest seq n, fields s = command :: rest →
      mapLookup (buildFlags (command :: rest)) (str "i") = some seq →
      atoi seq = some n →
      ∃ cmd, parseCommand s rev = some cmd ∧ cmd.seqNum = n) := by
  constructor
  · intro command rest hf hi
    exact ⟨_, parseCommand_of_fields s rev command rest 0 hf (by rw [hi]), rfl⟩
  · intro command rest seq n hf hi ha
    exact ⟨_, parseCommand_of_fields s rev command rest n hf (by rw [hi]; exact ha), rfl⟩

/-- C6 witness: "status" has no `-i` binding and parses with seqNum 0;
"run -i 7" parses with seqNum 7. -/
theorem c6_seq_num_amended_witness :
    (∃ cmd, parseCommand (str "status") false = some cmd ∧ cmd.seqNum = 0) ∧
    (∃ cmd, parseCommand (str "run -i 7") true = some cmd ∧ cmd.seqNum = 7) := by
  refine ⟨(c6_seq_num_amended (str "status") false).1 (str "status") [] (by decide)
      (by decide),
    (c6_seq_num_amended (str "run -i 7") true).2 (str "run") [str "-i", str "7"]
      (str "7") 7 (by decide) (by decide) (by decide)⟩

/-- C7: a `z` binding of "1" forces the command's reverse flag to true and
a binding of "0" forces it to false, regardless of the ambient mode; with
no `z` binding the command inherits the ambient mode. -/
theorem c7_reverse_flag_override (s : List Char) (rev : Bool) (cmd : dbgpCmd)
    (h : parseCommand s rev = some cmd) :
    (mapLookup cmd.options (str "z") = some (str "1") → cmd.reverse = true) ∧
    (mapLookup cmd.options (str "z") = some (str "0") → cmd.reverse = false) ∧
    (mapLookup cmd.options (str "z") = none → cmd.reverse = rev) := by
  obtain ⟨rest, -, -, -, -, hrev⟩ := parseCommand_some_shape s rev cmd h
  refine ⟨?_, ?_, ?_⟩ <;> intro hz <;> rw [hrev, hz] <;> rfl

/-- C7 witness: "run -z 1" parsed with ambient reverse false yields a
command whose reverse flag is true. -/
theorem c7_reverse_flag_override_witness :
    ∃ cmd, parseCommand (str "run -z 1") false = some cmd ∧ cmd.reverse = true := by
  refine ⟨⟨str "run", str "run -z 1", [(str "z", str "1")], 0, true⟩, by decide, ?_⟩
  exact (c7_reverse_flag_override (str "run -z 1") false
    ⟨str "run", str "run -z 1", [(str "z", str "1")], 0, true⟩ (by decide)).1 (by decide)

/-- C8: `parseGdbStringResponse` returns its error value exactly when the
input holds fewer than two double quotes.  The claim's "otherwise it
succeeds" part fails: on the three-character input quote-backslash-quote
the content between the quotes is a lone backslash, on which
`unquoteGdbStringResult` reads out of range and the process panics
instead of succeeding. -/
theorem c8_parse_gdb_string_response_behaviour :
    (∀ s : List Char, isErrResult (parseGdbStringResponse s) = true ↔
      s.count '"' < 2) ∧
    parseGdbStringResponse (str "\"\\\"") = none := by
  constructor
  · intro s
    rcases Nat.lt_or_ge (s.count '"') 2 with hlt | hge
    · by_cases h0 : s.count '"' = 0
      · have hfi : strIndexAux '"' s = none := (strIndexAux_eq_none_iff _ _).mpr h0
        have hla : strLastIndexAux '"' s = none := (strLastIndexAux_eq_none_iff _ _).mpr h0
        simp [parseGdbStringResponse, strIndex, strLastIndex, hfi, hla, isErrResult, hlt]
      · have h1 : s.count '"' = 1 := by omega
        have heq := indices_eq_of_count_one '"' s h1
        have hnen : strIndexAux '"' s ≠ none := fun hc =>
          h0 ((strIndexAux_eq_none_iff _ _).mp hc)
        rcases hfi : strIndexAux '"' s with _ | i
        · exact absurd hfi hnen
        · have hla : strLastIndexAux '"' s = some i := by rw [← heq, hfi]
          simp [parseGdbStringResponse, strIndex, strLastIndex, hfi, hla, isErrResult, hlt]
    · obtain ⟨i, j, hfi, hla, hne⟩ := indices_ne_of_count_two '"' s hge
      have hcond : ¬(strIndex s '"' = strLastIndex s '"' ∨ strIndex s '"' = -1 ∨
          strLastIndex s '"' = -1) := by
        simp only [strIndex, strLastIndex, hfi, hla]
        omega
      rcases hu : unquoteGdbStringResult
          (goSlice s (strIndex s '"' + 1) (strLastIndex s '"')) with _ | u <;>
        simp [parseGdbStringResponse, hcond, hu, isErrResult, Nat.not_lt.mpr hge]
  · decide

/-- C9 counterexample: a response whose class field is "done" but which
carries no payload field; by the claim the bridge should return the value
field, but `xGdbCmdValue` hits a failing type assertion and the process
terminates, refuting "terminates fatally exactly when the response has no
class field or its class field differs from done". -/
theorem c9_counterexample :
    mapLookup [(str "class", goValue.vStr (str "done"))] (str "class")
      = some (goValue.vStr (str "done")) ∧
    xGdbCmdValue [(str "class", goValue.vStr (str "done"))] = none :=
  ⟨rfl, rfl⟩

/-- C9 amended: `xGdbCmdValue` terminates the bridge fatally when the
response has no class field, when its class differs from "done", and also
when the class is "done" but the payload is not a map carrying a
string-valued "value" field; it returns `v` exactly when the class is
"done" and the payload map's "value" field is the string `v`. -/
theorem c9_x_gdb_cmd_value_amended (result : List (List Char × goValue)) :
    (mapLookup result (str "class") = none → xGdbCmdValue result = none) ∧
    (∀ cls, mapLookup result (str "class") = some cls →
      cls ≠ goValue.vStr (str "done") → xGdbCmdValue result = none) ∧
    (∀ v, xGdbCmdValue result = some v ↔
      (mapLookup result (str "class") = some (goValue.vStr (str "done")) ∧
        ∃ payload, mapLookup result (str "payload") = some (goValue.vMap payload) ∧
          mapLookup payload (str "value") = some (goValue.vStr v))) := by
  refine ⟨?_, ?_, ?_⟩
  · intro h
    simp [xGdbCmdValue, h]
  · intro cls hc hne
    cases cls with
    | vStr s =>
      have hs : s ≠ str "done" := fun hs => hne (by rw [hs])
      simp [xGdbCmdValue, hc, hs]
    | vMap m => simp [xGdbCmdValue, hc]
    | other => simp [xGdbCmdValue, hc]
  · intro v
    constructor
    · intro h
      unfold xGdbCmdValue at h
      rcases hc : mapLookup result (str "class") with _ | cls <;> rw [hc] at h
      · simp at h
      cases cls with
      | vStr s =>
        by_cases hs : s = str "done"
        · subst hs
          rcases hp : mapLookup result (str "payload") with _ | pv
          · simp [hp] at h
          cases pv with
          | vMap payload =>
            rcases hv : mapLookup payload (str "value") with _ | vv
            · simp [hp, hv] at h
            cases vv with
            | vStr w =>
              simp [hp, hv] at h
              subst h
              exact ⟨rfl, payload, rfl, hv⟩
            | vMap m2 => simp [hp, hv] at h
            | other => simp [hp, hv] at h
          | vStr s2 => simp [hp] at h
          | other => simp [hp] at h
        · simp [hs] at h
      | vMap m => simp at h
      | other => simp at h
    · rintro ⟨hc, payload, hp, hv⟩
      simp [xGdbCmdValue, hc, hp, hv]

/-- C9 witness: a well-shaped "done" response with a payload map carrying
value "42" makes `xGdbCmdValue` return "42". -/
theorem c9_x_gdb_cmd_value_amended_witness :
    xGdbCmdValue [(str "class", goValue.vStr (str "done")),
      (str "payload", goValue.vMap [(str "value", goValue.vStr (str "42"))])]
      = some (str "42") := by
  exact ((c9_x_gdb_cmd_value_amended _).2.2 (str "42")).mpr
    ⟨rfl, [(str "value", goValue.vStr (str "42"))], rfl, rfl⟩

end Dontbug
